import Mathlib

/-!
Shallow embedding of `spinup/examples/pytorch/pg_math/1_simple_pg.py`, the
simplest policy-gradient training script: the `mlp` network builder, the
space checks at the top of `train`, the batch-collection loop of
`train_one_epoch`, the surrogate loss `compute_loss`, and the per-epoch
gradient/optimizer step.

Modelling choices:
* Rewards (floats in the script) are elements of an arbitrary additive
  commutative monoid `R` in the collection loop, and of `ℚ` in the loss and
  optimizer; concrete instantiations use `ℤ` or `ℚ`.
* The stochastic pieces (action sampling through the Categorical
  distribution, environment transitions) are parametrised by explicit
  state machines (`get_action : P → O → Nat × P`, `Env`), so every theorem
  quantifies over every possible run.
* The neural network itself is kept symbolic: the log-probability function
  `logp` and the autodiff gradient `gradOf` of the batch loss are abstract
  parameters, since their values are transcendental.
* The `while True` loop is embedded with explicit fuel; a run that would
  not terminate within the fuel returns `none`, and theorems about a
  finished collection are conditioned on a `some` result.
-/

namespace SimplePG

/-- A gymnasium space, as far as the script inspects it: `train` only tests
membership in `Box` (continuous vector space) and `Discrete` (finite action
set); every other space kind is `other`. -/
inductive Space where
  | box (shape : List Nat)
  | discrete (n : Nat)
  | other
deriving DecidableEq, Repr

/-- Embedding of `isinstance(space, Box)` from the first assertion of `train`. -/
def Space.isBox : Space → Bool
  | .box _ => true
  | _ => false

/-- Embedding of `isinstance(space, Discrete)` from the second assertion of `train`. -/
def Space.isDiscrete : Space → Bool
  | .discrete _ => true
  | _ => false

/-- The two `assert isinstance(...)` checks at the top of `train`
(source lines 28-31), in source order, with the messages of the source;
`Except.error` models the `AssertionError` abort. -/
def checkSpaces (observation_space action_space : Space) : Except String Unit :=
  if ¬ observation_space.isBox then
    Except.error "This example only works for envs with continuous state spaces."
  else if ¬ action_space.isDiscrete then
    Except.error "This example only works for envs with discrete action spaces."
  else Except.ok ()

/-- One symbolic layer of the network returned by `mlp`: either
`nn.Linear(inDim, outDim)` or an activation module instance (`act()`); the
activation type is kept abstract as a label of type `A`. -/
inductive LayerSpec (A : Type) where
  | linear (inDim outDim : Nat)
  | act (a : A)
deriving DecidableEq, Repr

/-- The `mlp` builder (source lines 13-19): for `j` in
`range(len(sizes)-1)` append `nn.Linear(sizes[j], sizes[j+1])` followed by
`activation()` when `j < len(sizes)-2` and `output_activation()` otherwise.
List indexing `sizes[j]` is total in Python for these `j`; `getD _ 0` is
its embedding. -/
def mlp (A : Type) (sizes : List Nat) (activation output_activation : A) :
    List (LayerSpec A) :=
  (List.range (sizes.length - 1)).flatMap fun j =>
    [LayerSpec.linear (sizes.getD j 0) (sizes.getD (j + 1) 0),
     LayerSpec.act (if j < sizes.length - 2 then activation else output_activation)]

/-- Reference builder written from the words of the spec: a composed
sequence of linear-transform-plus-activation stages, stage `j` mapping
dimension `s_j` to `s_(j+1)`, with the hidden activation after every linear
stage except the last and the output activation after the last. -/
def mlpSpec (A : Type) (activation output_activation : A) :
    List Nat → List (LayerSpec A)
  | s :: t :: u :: rest =>
      LayerSpec.linear s t :: LayerSpec.act activation ::
        mlpSpec A activation output_activation (t :: u :: rest)
  | [s, t] => [LayerSpec.linear s t, LayerSpec.act output_activation]
  | _ => []

/-- The mutable lists of `train_one_epoch` (source lines 60-66), plus the
running `ep_rews` of the current episode.  The extra field `batch_rews` is
a ghost field for specification only: it records, for each completed
episode, the snapshot of `ep_rews` at the moment `done` was handled; no
control flow reads it. -/
structure BatchState (O R : Type) where
  batch_obs : List O
  batch_acts : List Nat
  batch_weights : List R
  batch_rets : List R
  batch_lens : List Nat
  ep_rews : List R
  batch_rews : List (List R)
deriving DecidableEq, Repr

/-- The environment as the script uses it: `reset()` returning the first
observation (the `info` component is discarded by the script) and
`step(act)` returning observation, reward, and the `done` flag (the script
reads only the third component of the gymnasium 5-tuple, ignoring
`truncated` and `info`).  The state `E` carries everything the environment
remembers, including any randomness source. -/
structure Env (E O R : Type) where
  reset : E → O × E
  step : E → Nat → O × R × Bool × E

/-- The empty lists with which `train_one_epoch` starts (source lines 60-66). -/
def initBatch (O R : Type) : BatchState O R := ⟨[], [], [], [], [], [], []⟩

/-- The `while True` experience loop of `train_one_epoch` (source lines
75-106), with explicit fuel.  Each iteration appends the current
observation, samples an action (`get_action`, threading its sampler state
`P`), steps the environment, and appends action and reward.  On `done` it
records the episode return and length, extends `batch_weights` with
`[ep_ret] * ep_len`, resets the environment, and only then breaks when
`len(batch_obs) > batch_size` (strictly greater, source line 105).
Rendering and printing are side effects without state and are omitted. -/
def collectLoop {E O P R : Type} [AddCommMonoid R] (env : Env E O R)
    (get_action : P → O → Nat × P) (batch_size : Nat) :
    Nat → BatchState O R → O → E → P → Option (BatchState O R × E × P)
  | 0, _, _, _, _ => none
  | fuel + 1, s, obs, e, p =>
    let s1 : BatchState O R := { s with batch_obs := s.batch_obs ++ [obs] }
    let ap := get_action p obs
    let st := env.step e ap.1
    let s2 : BatchState O R :=
      { s1 with batch_acts := s1.batch_acts ++ [ap.1],
                ep_rews := s1.ep_rews ++ [st.2.1] }
    if st.2.2.1 then
      let ep_ret := s2.ep_rews.sum
      let ep_len := s2.ep_rews.length
      let s3 : BatchState O R :=
        { s2 with batch_rets := s2.batch_rets ++ [ep_ret],
                  batch_lens := s2.batch_lens ++ [ep_len],
                  batch_weights := s2.batch_weights ++ List.replicate ep_len ep_ret,
                  batch_rews := s2.batch_rews ++ [s2.ep_rews],
                  ep_rews := [] }
      let re := env.reset st.2.2.2
      if s3.batch_obs.length > batch_size then some (s3, re.2, ap.2)
      else collectLoop env get_action batch_size fuel s3 re.1 re.2 ap.2
    else collectLoop env get_action batch_size fuel s2 st.1 st.2.2.2 ap.2

/-- One full batch collection as `train_one_epoch` performs it: reset the
environment (source line 68), then run the experience loop from empty
lists. -/
def collectBatch {E O P R : Type} [AddCommMonoid R] (env : Env E O R)
    (get_action : P → O → Nat × P) (batch_size fuel : Nat) (e : E) (p : P) :
    Option (BatchState O R × E × P) :=
  let re := env.reset e
  collectLoop env get_action batch_size fuel (initBatch O R) re.1 re.2 p

/-- The first episode boundary (cumulative step count over whole episodes)
that is at least `batch_size`; the quantity the claim about the stopping
rule refers to. -/
def firstBoundaryAtLeast (lens : List Nat) (batch_size : Nat) : Option Nat :=
  ((List.range lens.length).map fun k => (lens.take (k + 1)).sum).find?
    fun c => decide (batch_size ≤ c)

/-- Invariant of the experience loop at the entry of each iteration:
the lists are aligned (`ep_rews` holding the incomplete current episode),
`batch_weights` is the concatenation of per-episode constant blocks,
returns and lengths are the sums and lengths of the recorded episode
reward lists, and no break has fired yet (episode steps so far are at most
`batch_size`). -/
def BatchInv {O R : Type} [AddCommMonoid R] (batch_size : Nat) (s : BatchState O R) : Prop :=
  s.batch_acts.length = s.batch_obs.length ∧
  s.batch_obs.length = s.batch_lens.sum + s.ep_rews.length ∧
  s.batch_weights.length = s.batch_lens.sum ∧
  s.batch_weights =
    (List.zipWith (fun l r => List.replicate l r) s.batch_lens s.batch_rets).flatten ∧
  s.batch_rets = s.batch_rews.map List.sum ∧
  s.batch_lens = s.batch_rews.map List.length ∧
  s.batch_lens.sum ≤ batch_size

/-- State of a finished collection: no pending episode, aligned lists whose
common length is the total of the episode lengths, per-episode constant
weights, and the stop fired at the first episode boundary strictly above
`batch_size`. -/
def BatchDone {O R : Type} [AddCommMonoid R] (batch_size : Nat) (s : BatchState O R) : Prop :=
  s.ep_rews = [] ∧
  s.batch_acts.length = s.batch_obs.length ∧
  s.batch_obs.length = s.batch_lens.sum ∧
  s.batch_weights.length = s.batch_lens.sum ∧
  s.batch_weights =
    (List.zipWith (fun l r => List.replicate l r) s.batch_lens s.batch_rets).flatten ∧
  s.batch_rets = s.batch_rews.map List.sum ∧
  s.batch_lens = s.batch_rews.map List.length ∧
  batch_size < s.batch_lens.sum ∧
  ∀ k, k < s.batch_lens.length → (s.batch_lens.take k).sum ≤ batch_size

/-- Adam default beta1 of `torch.optim.Adam`. -/
def beta1 : ℚ := 9 / 10

/-- Adam default beta2 of `torch.optim.Adam`. -/
def beta2 : ℚ := 999 / 1000

/-- Adam default eps of `torch.optim.Adam`. -/
def adamEps : ℚ := 1 / 100000000

/-- First moment, second moment and step count of one Adam coordinate. -/
structure AdamState where
  m : ℚ
  v : ℚ
  t : Nat
deriving DecidableEq, Repr

/-- Modelled from the spec: the optimizer of source line 56
(`Adam(logits_net.parameters(), lr=lr)`) is library code outside this
repository; the spec describes it as the standard adaptive first-order
moment-based update.  This is the per-coordinate Adam rule with the torch
defaults, parametrised by an abstract square-root function `sqrtFn`
because `ℚ` has no internal square root. -/
def adamStep (sqrtFn : ℚ → ℚ) (lr theta grad : ℚ) (st : AdamState) : ℚ × AdamState :=
  let t := st.t + 1
  let m := beta1 * st.m + (1 - beta1) * grad
  let v := beta2 * st.v + (1 - beta2) * grad ^ 2
  let mhat := m / (1 - beta1 ^ t)
  let vhat := v / (1 - beta2 ^ t)
  (theta - lr * mhat / (sqrtFn vhat + adamEps), ⟨m, v, t⟩)

/-- One policy parameter coordinate together with its autograd `.grad`
buffer and its Adam slot.  Adam updates every coordinate independently, so
one coordinate captures the parameter-update law. -/
structure TrainState where
  theta : ℚ
  grad : ℚ
  adam : AdamState
deriving DecidableEq, Repr

/-- Fresh parameter state: `.grad` starts empty (treated as zero) and the
Adam moments start at zero. -/
def initTrain (theta0 : ℚ) : TrainState := ⟨theta0, 0, ⟨0, 0, 0⟩⟩

/-- Source lines 112-113: `batch_loss.backward()` followed by
`optimizer.step()`.  Per the documented autograd semantics, `backward()`
ADDS the new gradient `g` into the `.grad` buffer (the script never calls
`optimizer.zero_grad()`), and `step()` consumes the buffer without
clearing it. -/
def backwardThenStep (sqrtFn : ℚ → ℚ) (lr g : ℚ) (ts : TrainState) : TrainState :=
  let grad := ts.grad + g
  let r := adamStep sqrtFn lr ts.theta grad ts.adam
  ⟨r.1, grad, r.2⟩

/-- The loss of `compute_loss` (source lines 51-53): log-probabilities of
the taken actions under the current policy (`logp`, abstract), multiplied
elementwise by the weights, averaged (`.mean()` is sum over number of
elements), and negated. -/
def compute_loss {O : Type} (logp : O → Nat → ℚ) (obs : List O) (act : List Nat)
    (weights : List ℚ) : ℚ :=
  let lp := List.zipWith (fun o a => logp o a) obs act
  let prods := List.zipWith (fun x w => x * w) lp weights
  let m : ℚ := prods.sum / prods.length
  (-m)

/-- Mean of a rational list, as `np.mean` on the returns. -/
def npMean (l : List ℚ) : ℚ := l.sum / l.length

/-- Mean of a list of naturals, as `np.mean` on the episode lengths. -/
def npMeanNat (l : List Nat) : ℚ := (l.map fun n => (n : ℚ)).sum / l.length

/-- One epoch of `train_one_epoch` (source lines 59-114): collect a batch,
compute the batch loss, run backward and the optimizer step, and return
the logged triple (loss, mean return, mean episode length) together with
the carried environment, sampler and parameter state.  The gradient of the
batch loss with respect to the parameter is the abstract `gradOf`, a
function of the collected batch and the current parameter. -/
def train_one_epoch {E O P : Type} (env : Env E O ℚ) (get_action : P → O → Nat × P)
    (logp : O → Nat → ℚ) (gradOf : BatchState O ℚ → ℚ → ℚ) (sqrtFn : ℚ → ℚ)
    (lr : ℚ) (batch_size fuel : Nat) (e : E) (p : P) (ts : TrainState) :
    Option ((ℚ × ℚ × ℚ) × E × P × TrainState) :=
  match collectBatch env get_action batch_size fuel e p with
  | none => none
  | some (s, e1, p1) =>
    let loss := compute_loss logp s.batch_obs s.batch_acts s.batch_weights
    let ts1 := backwardThenStep sqrtFn lr (gradOf s ts.theta) ts
    some ((loss, npMean s.batch_rets, npMeanNat s.batch_lens), e1, p1, ts1)

/-- The epoch loop of `train` (source lines 117-120): run
`train_one_epoch` once per epoch, collecting the logged triples in order.
The loop has no early exit; it fails only if some collection runs out of
fuel. -/
def train_loop {E O P : Type} (env : Env E O ℚ) (get_action : P → O → Nat × P)
    (logp : O → Nat → ℚ) (gradOf : BatchState O ℚ → ℚ → ℚ) (sqrtFn : ℚ → ℚ)
    (lr : ℚ) (batch_size fuel : Nat) :
    Nat → E → P → TrainState → Option (List (ℚ × ℚ × ℚ) × E × P × TrainState)
  | 0, e, p, ts => some ([], e, p, ts)
  | epochs + 1, e, p, ts =>
    match train_one_epoch env get_action logp gradOf sqrtFn lr batch_size fuel e p ts with
    | none => none
    | some (r, e1, p1, ts1) =>
      match train_loop env get_action logp gradOf sqrtFn lr batch_size fuel epochs e1 p1 ts1 with
      | none => none
      | some (rs, e2, p2, ts2) => some (r :: rs, e2, p2, ts2)

/-- The `train` entry point (source lines 22-120) after `gym.make`: first
the two space assertions, then the epoch loop.  Network construction is
absorbed into the abstract `logp`, `gradOf` and the parameter state. -/
def train {E O P : Type} (observation_space action_space : Space) (env : Env E O ℚ)
    (get_action : P → O → Nat × P) (logp : O → Nat → ℚ)
    (gradOf : BatchState O ℚ → ℚ → ℚ) (sqrtFn : ℚ → ℚ) (lr : ℚ)
    (epochs batch_size fuel : Nat) (e : E) (p : P) (ts : TrainState) :
    Except String (Option (List (ℚ × ℚ × ℚ) × E × P × TrainState)) :=
  match checkSpaces observation_space action_space with
  | Except.error msg => Except.error msg
  | Except.ok _ =>
    Except.ok (train_loop env get_action logp gradOf sqrtFn lr batch_size fuel epochs e p ts)

/-- Stub environment of the spec scenario: every episode terminates after
exactly two steps, each step paying reward one (modelled exactly in `ℤ`;
the float values 1.0 and 2.0 of the scenario are integral, so the
arithmetic is exact).  The state counts the steps of the current episode. -/
def twoStepEnv : Env Nat Unit ℤ where
  reset _ := ((), 0)
  step e _ := ((), 1, e + 1 == 2, e + 1)

/-- Deterministic stub action sampler (always action 0), as a policy with
uniform logits that is sampled with a fixed seed would give. -/
def actZero : Unit → Unit → Nat × Unit := fun _ _ => (0, ())

/-- The batch state the two-step stub run reaches: two full episodes, four
steps, every weight equal to the episode return two. -/
def stubState : BatchState Unit ℤ :=
  ⟨[(), (), (), ()], [0, 0, 0, 0], [2, 2, 2, 2], [2, 2], [2, 2], [], [[1, 1], [1, 1]]⟩

/-- Stub environment over `ℚ` for the optimizer-level runs: every episode
is a single step with reward zero, so batch arithmetic stays trivial while
the gradient dynamics are exercised through the abstract `gradOf`. -/
def zeroRewardEnv : Env Unit Unit ℚ where
  reset _ := ((), ())
  step _ _ := ((), 0, true, ())

theorem mlp_cons_cons (A : Type) (a o : A) (s t u : Nat) (rest : List Nat) :
    mlp A (s :: t :: u :: rest) a o =
      LayerSpec.linear s t :: LayerSpec.act a :: mlp A (t :: u :: rest) a o := by
  simp only [mlp, List.length_cons, Nat.add_sub_cancel, List.range_succ_eq_map,
    List.flatMap_cons, List.flatMap_map]
  simp [List.getD_cons_succ, List.getD_cons_zero, Nat.succ_lt_succ_iff]

/-- Claim C9: for every size list with at least two entries, `mlp` builds
the staged sequence: one linear stage per adjacent size pair, the hidden
activation after every linear stage except the last, and the output
activation after the last.  Stated as equality with the stage-recursive
reference builder `mlpSpec`, for all size lists. -/
theorem mlp_matches_staged_spec (A : Type) (a o : A) (sizes : List Nat) :
    mlp A sizes a o = mlpSpec A a o sizes := by
  induction sizes with
  | nil => rfl
  | cons s tail ih =>
    match tail with
    | [] => rfl
    | [t] => rfl
    | t :: u :: rest =>
      rw [mlp_cons_cons, ih]
      rfl

theorem collectLoop_done {E O P R : Type} [AddCommMonoid R] (env : Env E O R)
    (get_action : P → O → Nat × P) (batch_size : Nat) :
    ∀ (fuel : Nat) (s : BatchState O R) (obs : O) (e : E) (p : P)
      (s1 : BatchState O R) (e1 : E) (p1 : P),
      BatchInv batch_size s →
      collectLoop env get_action batch_size fuel s obs e p = some (s1, e1, p1) →
      BatchDone batch_size s1 := by
  intro fuel
  induction fuel with
  | zero =>
    intro s obs e p s1 e1 p1 _ hcol
    simp [collectLoop] at hcol
  | succ fuel ih =>
    intro s obs e p s1 e1 p1 hinv hcol
    obtain ⟨hacts, hobs, hwlen, hw, hrets, hlens, hsum⟩ := hinv
    have hll : s.batch_lens.length = s.batch_rets.length := by
      rw [hrets, hlens]; simp
    rw [collectLoop] at hcol
    simp only [] at hcol
    split at hcol
    · split at hcol
      · rename_i hdone hbreak
        simp only [Option.some.injEq, Prod.mk.injEq] at hcol
        obtain ⟨hs1, he1, hp1⟩ := hcol
        subst hs1
        simp only [List.length_append, List.length_cons, List.length_nil] at hbreak ⊢
        refine ⟨rfl, ?_, ?_, ?_, ?_, ?_, ?_, ?_, ?_⟩
        · simp [hacts]
        · simp [List.sum_append, hobs]; omega
        · simp [List.sum_append, hwlen]
        · rw [hw, List.zipWith_append _ _ _ _ _ hll, List.flatten_append]
          simp
        · simp [hrets]
        · simp [hlens]
        · simp only [List.sum_append, List.sum_cons, List.sum_nil]
          omega
        · intro k hk
          simp only [List.length_append, List.length_cons, List.length_nil] at hk
          rw [List.take_append_of_le_length (by omega)]
          have := List.sum_take_add_sum_drop s.batch_lens k
          omega
      · rename_i hdone hnobreak
        refine ih _ _ _ _ _ _ _ ?_ hcol
        simp only [not_lt] at hnobreak
        simp only [List.length_append, List.length_cons, List.length_nil] at hnobreak
        refine ⟨?_, ?_, ?_, ?_, ?_, ?_, ?_⟩
        · simp [hacts]
        · simp [List.sum_append, hobs]; omega
        · simp [List.sum_append, hwlen]
        · rw [hw, List.zipWith_append _ _ _ _ _ hll, List.flatten_append]
          simp
        · simp [hrets]
        · simp [hlens]
        · simp only [List.sum_append, List.sum_cons, List.sum_nil,
            List.length_append, List.length_cons, List.length_nil]
          omega
    · refine ih _ _ _ _ _ _ _ ?_ hcol
      refine ⟨?_, ?_, ?_, hw, hrets, hlens, hsum⟩
      · simp [hacts]
      · simp [hobs]; omega
      · simpa using hwlen

theorem collectBatch_done {E O P R : Type} [AddCommMonoid R] (env : Env E O R)
    (get_action : P → O → Nat × P) (batch_size fuel : Nat) (e : E) (p : P)
    (s1 : BatchState O R) (e1 : E) (p1 : P)
    (h : collectBatch env get_action batch_size fuel e p = some (s1, e1, p1)) :
    BatchDone batch_size s1 := by
  have hinv : BatchInv batch_size (initBatch O R) := by
    simp [BatchInv, initBatch]
  simp only [collectBatch] at h
  exact collectLoop_done env get_action batch_size fuel _ _ _ _ s1 e1 p1 hinv h

/-- Claim C2, counterexample: with episodes of exactly two steps and
`batch_size = 2`, the first episode boundary at or after the minimum batch
size is 2, but collection stops with 4 steps, because the break condition
of source line 105 is strict (`len(batch_obs) > batch_size`). -/
theorem batch_stop_count_exceeds_first_boundary_at_batch_size :
    ((collectBatch twoStepEnv actZero 2 10 0 ()).map fun x => x.1.batch_obs.length) =
      some 4 ∧
    ((collectBatch twoStepEnv actZero 2 10 0 ()).map fun x =>
        firstBoundaryAtLeast x.1.batch_lens 2) = some (some 2) ∧
    (4 : Nat) ≠ 2 := by
  decide

/-- Claim C2 (amended): every finished collection stops at an episode
boundary, never mid-episode (the collected step count equals the total of
the episode lengths), and that boundary is the first one at which the
cumulative step count STRICTLY exceeds the configured minimum batch size:
the total exceeds `batch_size` while every earlier boundary is at most
`batch_size`. -/
theorem batch_stops_at_first_boundary_above_batch_size {E O P R : Type} [AddCommMonoid R]
    (env : Env E O R) (get_action : P → O → Nat × P) (batch_size fuel : Nat)
    (e : E) (p : P) (s1 : BatchState O R) (e1 : E) (p1 : P)
    (h : collectBatch env get_action batch_size fuel e p = some (s1, e1, p1)) :
    s1.batch_obs.length = s1.batch_lens.sum ∧
    batch_size < s1.batch_lens.sum ∧
    ∀ k, k < s1.batch_lens.length → (s1.batch_lens.take k).sum ≤ batch_size := by
  obtain ⟨-, -, hlen, -, -, -, -, hlt, hpre⟩ :=
    collectBatch_done env get_action batch_size fuel e p s1 e1 p1 h
  exact ⟨hlen, hlt, hpre⟩

theorem batch_stops_at_first_boundary_above_witness :
    stubState.batch_obs.length = stubState.batch_lens.sum ∧
    3 < stubState.batch_lens.sum :=
  ⟨(batch_stops_at_first_boundary_above_batch_size twoStepEnv actZero 3 10 0 () stubState 0 ()
      (by decide)).1,
   (batch_stops_at_first_boundary_above_batch_size twoStepEnv actZero 3 10 0 () stubState 0 ()
      (by decide)).2.1⟩

/-- Claim C3: in every finished collection, the weight list is the
concatenation of one constant block per episode, each block repeating the
episode return for the length of the episode, where the return is the
plain (undiscounted) sum of the rewards of that episode and the length is
its step count. -/
theorem weights_equal_episode_total_return {E O P R : Type} [AddCommMonoid R]
    (env : Env E O R) (get_action : P → O → Nat × P) (batch_size fuel : Nat)
    (e : E) (p : P) (s1 : BatchState O R) (e1 : E) (p1 : P)
    (h : collectBatch env get_action batch_size fuel e p = some (s1, e1, p1)) :
    s1.batch_weights =
      (List.zipWith (fun l r => List.replicate l r) s1.batch_lens s1.batch_rets).flatten ∧
    s1.batch_rets = s1.batch_rews.map List.sum ∧
    s1.batch_lens = s1.batch_rews.map List.length := by
  obtain ⟨-, -, -, -, hwts, hrets, hlens, -, -⟩ :=
    collectBatch_done env get_action batch_size fuel e p s1 e1 p1 h
  exact ⟨hwts, hrets, hlens⟩

theorem weights_equal_episode_total_return_witness :
    stubState.batch_weights =
      (List.zipWith (fun l r => List.replicate l r) stubState.batch_lens
        stubState.batch_rets).flatten ∧
    stubState.batch_rets = stubState.batch_rews.map List.sum ∧
    stubState.batch_lens = stubState.batch_rews.map List.length :=
  weights_equal_episode_total_return twoStepEnv actZero 3 10 0 () stubState 0 () (by decide)

/-- Claim C10: when a collection finishes (the moment the batch loss is
computed), the observation, action and weight lists all have the same
length, and that length is the total of the recorded episode lengths, so
every collected step belongs to exactly one completed episode. -/
theorem batch_lists_aligned_at_loss {E O P R : Type} [AddCommMonoid R]
    (env : Env E O R) (get_action : P → O → Nat × P) (batch_size fuel : Nat)
    (e : E) (p : P) (s1 : BatchState O R) (e1 : E) (p1 : P)
    (h : collectBatch env get_action batch_size fuel e p = some (s1, e1, p1)) :
    s1.batch_obs.length = s1.batch_acts.length ∧
    s1.batch_obs.length = s1.batch_weights.length ∧
    s1.batch_obs.length = s1.batch_lens.sum := by
  obtain ⟨-, hacts, hlen, hwlen, -, -, -, -, -⟩ :=
    collectBatch_done env get_action batch_size fuel e p s1 e1 p1 h
  exact ⟨hacts.symm, by rw [hlen, hwlen], hlen⟩

theorem batch_lists_aligned_at_loss_witness :
    stubState.batch_obs.length = stubState.batch_acts.length ∧
    stubState.batch_obs.length = stubState.batch_weights.length ∧
    stubState.batch_obs.length = stubState.batch_lens.sum :=
  batch_lists_aligned_at_loss twoStepEnv actZero 3 10 0 () stubState 0 () (by decide)

/-- Claim C5: with the deterministic stub sampler and the stub environment
that terminates every episode after exactly two steps with reward one per
step, a collection pass with batch-size threshold three collects exactly
two full episodes, hence four steps (at least 2 and at least 4 as claimed),
and every collected step carries weight two, the episode return. -/
theorem two_step_stub_batch_scenario :
    ((collectBatch twoStepEnv actZero 3 10 0 ()).map
        fun x => (x.1.batch_lens.length, x.1.batch_obs.length, x.1.batch_weights)) =
      some (2, 4, [2, 2, 2, 2]) := by
  decide

theorem zipWith_mul_sum_eq {O : Type} (logp : O → Nat → ℚ) (d : O) :
    ∀ (obs : List O) (act : List Nat) (w : List ℚ),
      act.length = obs.length → w.length = obs.length →
      (List.zipWith (fun x y => x * y) (List.zipWith (fun o a => logp o a) obs act) w).sum =
        ∑ i ∈ Finset.range obs.length,
          logp (obs.getD i d) (act.getD i 0) * w.getD i 0 := by
  intro obs
  induction obs with
  | nil =>
    intro act w h1 h2
    simp
  | cons o obs ih =>
    intro act w h1 h2
    cases act with
    | nil => simp at h1
    | cons a act =>
      cases w with
      | nil => simp at h2
      | cons x w =>
        simp only [List.length_cons] at h1 h2
        simp only [List.zipWith_cons_cons, List.sum_cons, List.length_cons]
        rw [Finset.sum_range_succ']
        simp only [List.getD_cons_succ, List.getD_cons_zero]
        rw [ih act w (by omega) (by omega)]
        ring

/-- Claim C4: for aligned batch lists, the loss of `compute_loss` equals
the negated mean over the batch of the log-probability of each taken
action multiplied elementwise by the corresponding weight, written as an
indexed sum divided by the batch length. -/
theorem loss_is_neg_mean_weighted_logp {O : Type} (logp : O → Nat → ℚ) (d : O)
    (obs : List O) (act : List Nat) (weights : List ℚ)
    (h1 : act.length = obs.length) (h2 : weights.length = obs.length) :
    compute_loss logp obs act weights =
      -((∑ i ∈ Finset.range obs.length,
          logp (obs.getD i d) (act.getD i 0) * weights.getD i 0) / (obs.length : ℚ)) := by
  simp only [compute_loss]
  have hlen : (List.zipWith (fun x w => x * w)
      (List.zipWith (fun o a => logp o a) obs act) weights).length = obs.length := by
    simp [h1, h2]
  rw [hlen, zipWith_mul_sum_eq logp d obs act weights h1 h2]

theorem loss_is_neg_mean_weighted_logp_witness :
    compute_loss (fun q a => q * (a : ℚ)) [2, 3] [1, 2] [5, 7] =
      -((∑ i ∈ Finset.range ([(2 : ℚ), 3].length),
          (fun q a => q * (a : ℚ)) ([(2 : ℚ), 3].getD i 0) ([1, 2].getD i 0) *
            [(5 : ℚ), 7].getD i 0) / (([(2 : ℚ), 3].length : Nat) : ℚ)) :=
  loss_is_neg_mean_weighted_logp (fun q a => q * (a : ℚ)) 0 [2, 3] [1, 2] [5, 7] rfl rfl

theorem backwardThenStep_zero_lr (sqrtFn : ℚ → ℚ) (g : ℚ) (ts : TrainState) :
    (backwardThenStep sqrtFn 0 g ts).theta = ts.theta := by
  simp [backwardThenStep, adamStep]

theorem backwardThenStep_t (sqrtFn : ℚ → ℚ) (lr g : ℚ) (ts : TrainState) :
    (backwardThenStep sqrtFn lr g ts).adam.t = ts.adam.t + 1 := by
  simp [backwardThenStep, adamStep]

theorem backwardThenStep_changes (sqrtFn : ℚ → ℚ) (lr g th0 : ℚ)
    (hs : ∀ x, 0 ≤ x → 0 ≤ sqrtFn x) (hlr : lr ≠ 0) (hg : g ≠ 0) :
    (backwardThenStep sqrtFn lr g (initTrain th0)).theta ≠ th0 := by
  simp only [backwardThenStep, adamStep, initTrain]
  have hb1 : (1 : ℚ) - beta1 ≠ 0 := by norm_num [beta1]
  have hb2 : (1 : ℚ) - beta2 ≠ 0 := by norm_num [beta2]
  simp only [mul_zero, zero_add, pow_one]
  rw [mul_div_cancel_left₀ _ hb1, mul_div_cancel_left₀ _ hb2]
  intro hEq
  rw [sub_eq_self] at hEq
  have hd : 0 < sqrtFn (g ^ 2) + adamEps :=
    add_pos_of_nonneg_of_pos (hs _ (sq_nonneg g)) (by norm_num [adamEps])
  rcases div_eq_zero_iff.mp hEq with hnum | hden
  · exact mul_ne_zero hlr hg hnum
  · exact absurd hden (ne_of_gt hd)

theorem train_one_epoch_state {E O P : Type} (env : Env E O ℚ) (ga : P → O → Nat × P)
    (logp : O → Nat → ℚ) (gradOf : BatchState O ℚ → ℚ → ℚ) (sqrtFn : ℚ → ℚ)
    (lr : ℚ) (bs fuel : Nat) (e : E) (p : P) (ts : TrainState)
    (r : ℚ × ℚ × ℚ) (e1 : E) (p1 : P) (ts1 : TrainState)
    (h : train_one_epoch env ga logp gradOf sqrtFn lr bs fuel e p ts = some (r, e1, p1, ts1)) :
    ∃ s, ts1 = backwardThenStep sqrtFn lr (gradOf s ts.theta) ts := by
  unfold train_one_epoch at h
  cases hc : collectBatch env ga bs fuel e p with
  | none => rw [hc] at h; simp at h
  | some v =>
    obtain ⟨s, e2, p2⟩ := v
    rw [hc] at h
    simp only [Option.some.injEq, Prod.mk.injEq] at h
    exact ⟨s, h.2.2.2.symm⟩

/-- Claim C6: if the learning rate is zero then, for every number of
epochs and every finished run of the epoch loop, the policy parameter
after training is identical to the initial parameter: the optimizer update
is a no-op (the Adam step subtracts `lr * mhat / (sqrt vhat + eps)`,
which vanishes with `lr = 0`). -/
theorem zero_lr_preserves_parameters {E O P : Type} (env : Env E O ℚ)
    (ga : P → O → Nat × P) (logp : O → Nat → ℚ) (gradOf : BatchState O ℚ → ℚ → ℚ)
    (sqrtFn : ℚ → ℚ) (lr : ℚ) (bs fuel : Nat) :
    ∀ (epochs : Nat) (e : E) (p : P) (ts : TrainState) (logs : List (ℚ × ℚ × ℚ))
      (e1 : E) (p1 : P) (ts1 : TrainState),
      lr = 0 →
      train_loop env ga logp gradOf sqrtFn lr bs fuel epochs e p ts = some (logs, e1, p1, ts1) →
      ts1.theta = ts.theta := by
  intro epochs
  induction epochs with
  | zero =>
    intro e p ts logs e1 p1 ts1 hlr h
    simp only [train_loop, Option.some.injEq, Prod.mk.injEq] at h
    rw [← h.2.2.2]
  | succ n ih =>
    intro e p ts logs e1 p1 ts1 hlr h
    subst hlr
    rw [train_loop] at h
    cases h1 : train_one_epoch env ga logp gradOf sqrtFn 0 bs fuel e p ts with
    | none => simp only [h1] at h; exact absurd h (by simp)
    | some v =>
      obtain ⟨r, e2, p2, ts2⟩ := v
      simp only [h1] at h
      cases h2 : train_loop env ga logp gradOf sqrtFn 0 bs fuel n e2 p2 ts2 with
      | none => simp only [h2] at h; exact absurd h (by simp)
      | some w =>
        obtain ⟨rs, e3, p3, ts3⟩ := w
        simp only [h2, Option.some.injEq, Prod.mk.injEq] at h
        obtain ⟨sb, hg⟩ := train_one_epoch_state _ _ _ _ _ _ _ _ _ _ _ _ _ _ _ h1
        have := ih e2 p2 ts2 rs e3 p3 ts3 rfl h2
        rw [← h.2.2.2, this, hg, backwardThenStep_zero_lr]

theorem zero_lr_preserves_parameters_witness :
    (⟨0, 0, ⟨0, 0, 1⟩⟩ : TrainState).theta = (initTrain 0).theta :=
  zero_lr_preserves_parameters zeroRewardEnv actZero (fun _ _ => 0) (fun _ _ => 0) id 0 0 1 1
    () () (initTrain 0) [(0, 0, 1)] () () ⟨0, 0, ⟨0, 0, 1⟩⟩ rfl
    (by norm_num [train_loop, train_one_epoch, collectBatch, collectLoop, initBatch,
      zeroRewardEnv, actZero, compute_loss, npMean, npMeanNat, backwardThenStep, adamStep,
      initTrain, beta1, beta2, adamEps])

theorem train_loop_counts {E O P : Type} (env : Env E O ℚ) (ga : P → O → Nat × P)
    (logp : O → Nat → ℚ) (gradOf : BatchState O ℚ → ℚ → ℚ) (sqrtFn : ℚ → ℚ)
    (lr : ℚ) (bs fuel : Nat) :
    ∀ (epochs : Nat) (e : E) (p : P) (ts : TrainState) (logs : List (ℚ × ℚ × ℚ))
      (e1 : E) (p1 : P) (ts1 : TrainState),
      train_loop env ga logp gradOf sqrtFn lr bs fuel epochs e p ts = some (logs, e1, p1, ts1) →
      logs.length = epochs ∧ ts1.adam.t = ts.adam.t + epochs := by
  intro epochs
  induction epochs with
  | zero =>
    intro e p ts logs e1 p1 ts1 h
    simp only [train_loop, Option.some.injEq, Prod.mk.injEq] at h
    rw [← h.1, ← h.2.2.2]
    simp
  | succ n ih =>
    intro e p ts logs e1 p1 ts1 h
    rw [train_loop] at h
    cases h1 : train_one_epoch env ga logp gradOf sqrtFn lr bs fuel e p ts with
    | none => simp only [h1] at h; exact absurd h (by simp)
    | some v =>
      obtain ⟨r, e2, p2, ts2⟩ := v
      simp only [h1] at h
      cases h2 : train_loop env ga logp gradOf sqrtFn lr bs fuel n e2 p2 ts2 with
      | none => simp only [h2] at h; exact absurd h (by simp)
      | some w =>
        obtain ⟨rs, e3, p3, ts3⟩ := w
        simp only [h2, Option.some.injEq, Prod.mk.injEq] at h
        obtain ⟨sb, hg⟩ := train_one_epoch_state _ _ _ _ _ _ _ _ _ _ _ _ _ _ _ h1
        obtain ⟨hl, ht⟩ := ih e2 p2 ts2 rs e3 p3 ts3 h2
        constructor
        · rw [← h.1, List.length_cons, hl]
        · rw [← h.2.2.2, ht, hg, backwardThenStep_t]
          omega

/-- Claim C8: every finished run of the epoch loop produces exactly one
logged (loss, mean return, mean episode length) triple per configured
epoch with no early stop, takes exactly one optimizer step per epoch (the
Adam step counter grows by the epoch count), and for a single epoch from a
fresh parameter state with nonzero learning rate and nonzero batch
gradient the parameter after the run differs from the initial one. -/
theorem epoch_loop_runs_configured_epochs {E O P : Type} (env : Env E O ℚ)
    (ga : P → O → Nat × P) (logp : O → Nat → ℚ) (gradOf : BatchState O ℚ → ℚ → ℚ)
    (sqrtFn : ℚ → ℚ) (lr : ℚ) (bs fuel epochs : Nat) (e : E) (p : P) (ts : TrainState)
    (logs : List (ℚ × ℚ × ℚ)) (e1 : E) (p1 : P) (ts1 : TrainState) (th0 : ℚ)
    (h : train_loop env ga logp gradOf sqrtFn lr bs fuel epochs e p ts =
      some (logs, e1, p1, ts1)) :
    logs.length = epochs ∧ ts1.adam.t = ts.adam.t + epochs ∧
      (epochs = 1 → ts = initTrain th0 → lr ≠ 0 → (∀ s q, gradOf s q ≠ 0) →
        (∀ x, 0 ≤ x → 0 ≤ sqrtFn x) → ts1.theta ≠ th0) := by
  obtain ⟨hl, ht⟩ := train_loop_counts _ _ _ _ _ _ _ _ _ _ _ _ _ _ _ _ h
  refine ⟨hl, ht, ?_⟩
  intro hep hts hlr hgrad hsq
  subst hep hts
  rw [train_loop] at h
  cases h1 : train_one_epoch env ga logp gradOf sqrtFn lr bs fuel e p (initTrain th0) with
  | none => simp only [h1] at h; exact absurd h (by simp)
  | some v =>
    obtain ⟨r, e2, p2, ts2⟩ := v
    simp only [h1, train_loop, Option.some.injEq, Prod.mk.injEq] at h
    obtain ⟨sb, hg⟩ := train_one_epoch_state _ _ _ _ _ _ _ _ _ _ _ _ _ _ _ h1
    rw [← h.2.2.2, hg]
    have hth : (initTrain th0).theta = th0 := rfl
    rw [hth]
    exact backwardThenStep_changes sqrtFn lr _ th0 hsq hlr (hgrad sb th0)

theorem epoch_loop_runs_configured_epochs_witness :
    ([((0 : ℚ), (0 : ℚ), (1 : ℚ))].length = 1 ∧
      (⟨-1000000 / 100000001, 1, ⟨1 / 10, 1 / 1000, 1⟩⟩ : TrainState).adam.t =
        (initTrain 0).adam.t + 1) ∧
    (⟨-1000000 / 100000001, 1, ⟨1 / 10, 1 / 1000, 1⟩⟩ : TrainState).theta ≠ 0 := by
  have h := epoch_loop_runs_configured_epochs zeroRewardEnv actZero (fun _ _ => 0)
    (fun _ _ => 1) id (1 / 100) 0 1 1 () () (initTrain 0) [(0, 0, 1)] () ()
    ⟨-1000000 / 100000001, 1, ⟨1 / 10, 1 / 1000, 1⟩⟩ 0
    (by norm_num [train_loop, train_one_epoch, collectBatch, collectLoop, initBatch,
      zeroRewardEnv, actZero, compute_loss, npMean, npMeanNat, backwardThenStep, adamStep,
      initTrain, beta1, beta2, adamEps])
  exact ⟨⟨h.1, h.2.1⟩, h.2.2 rfl rfl (by norm_num) (fun s q => one_ne_zero) (fun x hx => hx)⟩

/-- Claim C7: if the observation space is not a `Box` the `train` entry
aborts with the first descriptive assertion message before any training
step; if it is a `Box` but the action space is not `Discrete` it aborts
with the second message; and when both checks pass `train` runs the whole
epoch loop with no other explicit error check. -/
theorem train_space_assertions {E O P : Type} (observation_space action_space : Space)
    (env : Env E O ℚ) (get_action : P → O → Nat × P) (logp : O → Nat → ℚ)
    (gradOf : BatchState O ℚ → ℚ → ℚ) (sqrtFn : ℚ → ℚ) (lr : ℚ)
    (epochs batch_size fuel : Nat) (e : E) (p : P) (ts : TrainState) :
    (observation_space.isBox = false →
      train observation_space action_space env get_action logp gradOf sqrtFn lr epochs
          batch_size fuel e p ts =
        Except.error "This example only works for envs with continuous state spaces.") ∧
    (observation_space.isBox = true → action_space.isDiscrete = false →
      train observation_space action_space env get_action logp gradOf sqrtFn lr epochs
          batch_size fuel e p ts =
        Except.error "This example only works for envs with discrete action spaces.") ∧
    (observation_space.isBox = true → action_space.isDiscrete = true →
      train observation_space action_space env get_action logp gradOf sqrtFn lr epochs
          batch_size fuel e p ts =
        Except.ok (train_loop env get_action logp gradOf sqrtFn lr batch_size fuel epochs
          e p ts)) := by
  refine ⟨fun h1 => ?_, fun h1 h2 => ?_, fun h1 h2 => ?_⟩
  · simp [train, checkSpaces, h1]
  · simp [train, checkSpaces, h1, h2]
  · simp [train, checkSpaces, h1, h2]

theorem train_space_assertions_witness :
    train (Space.box [4]) (Space.discrete 2) zeroRewardEnv actZero (fun _ _ => 0)
        (fun _ _ => 0) id 0 1 0 1 () () (initTrain 0) =
      Except.ok (train_loop zeroRewardEnv actZero (fun _ _ => 0) (fun _ _ => 0) id 0 0 1 1
        () () (initTrain 0)) :=
  (train_space_assertions (Space.box [4]) (Space.discrete 2) zeroRewardEnv actZero
    (fun _ _ => 0) (fun _ _ => 0) id 0 1 0 1 () () (initTrain 0)).2.2 rfl rfl

/-- Claim C1 (refuted by the code): the script never calls
`optimizer.zero_grad()`, and `loss.backward()` accumulates into the
`.grad` buffer, so the optimizer step of the second epoch is computed from
the SUM of the gradients of both epoch losses, not from the gradient of
that batch loss alone.  With the per-epoch batch-loss gradient equal to 1,
the buffer consumed by the step is 1 after one epoch but 2 (not 1) after
two epochs. -/
theorem optimizer_step_uses_accumulated_gradient :
    ((train_loop zeroRewardEnv actZero (fun _ _ => 0) (fun _ _ => 1) id (1 / 100) 0 2 2 () ()
        (initTrain 0)).map fun x => x.2.2.2.grad) = some 2 ∧
    ((train_loop zeroRewardEnv actZero (fun _ _ => 0) (fun _ _ => 1) id (1 / 100) 0 2 1 () ()
        (initTrain 0)).map fun x => x.2.2.2.grad) = some 1 ∧
    (2 : ℚ) ≠ 1 := by
  refine ⟨?_, ?_, by norm_num⟩ <;>
    norm_num [train_loop, train_one_epoch, collectBatch, collectLoop, initBatch, zeroRewardEnv,
      actZero, compute_loss, npMean, npMeanNat, backwardThenStep, adamStep, initTrain, beta1,
      beta2, adamEps]

end SimplePG
